import Mathlib

/-!
Verification of the HEGN registration model (`src/hegn/models/hegn.py`)
against its natural-language specification.

Tensors are embedded per batch element as curried functions over `Fin`
index types (a feature tensor `[B, C, 3, N]` becomes
`Fin C → Fin 3 → Fin N → ℝ`); the batched torch operations act
independently on each batch element, and batch averaging is written as an
explicit finite sum.  `torch.linalg.svd` is embedded relationally: the
code's `(u, s, v)` is any triple satisfying the SVD predicate (torch's
`v` is the transposed factor `Vᵀ`).
-/

set_option maxHeartbeats 1000000

noncomputable section

namespace HegnSpec

open Matrix

/-- `torch.softmax` along one finite axis. -/
def softmax {n : ℕ} (s : Fin n → ℝ) (i : Fin n) : ℝ :=
  Real.exp (s i) / ∑ j, Real.exp (s j)

/-- `torch.norm` of a finite real vector (Euclidean norm along one axis). -/
def vnorm {n : ℕ} (v : Fin n → ℝ) : ℝ :=
  Real.sqrt (∑ i, v i ^ 2)

namespace Alignment

/-- `H = torch.einsum('bcd,bce->bde', fx, fy)` for one batch element:
the 3×3 cross-covariance `H d e = ∑ c, fx c d * fy c e`
(`src/hegn/models/hegn.py`, line 114). -/
def H {C : ℕ} (fx fy : Fin C → Fin 3 → ℝ) : Matrix (Fin 3) (Fin 3) ℝ :=
  Matrix.of fun d e => ∑ c, fx c d * fy c e

/-- The contract of `torch.linalg.svd(A)` for a 3×3 batch element: it
returns some `(u, sv, vh)` with `u`, `vh` orthogonal, `sv` nonnegative and
`A = u * diagonal sv * vh` (torch's third return value is already `Vᵀ`). -/
def IsSVD (A u : Matrix (Fin 3) (Fin 3) ℝ) (sv : Fin 3 → ℝ)
    (vh : Matrix (Fin 3) (Fin 3) ℝ) : Prop :=
  uᵀ * u = 1 ∧ vhᵀ * vh = 1 ∧ (∀ i, 0 ≤ sv i) ∧ A = u * Matrix.diagonal sv * vh

/-- `R = torch.matmul(u, v)` (`src/hegn/models/hegn.py`, line 116); since
torch's `v` is `Vᵀ`, this is `U·Vᵀ` with no reflection-correction step. -/
def R (u vh : Matrix (Fin 3) (Fin 3) ℝ) : Matrix (Fin 3) (Fin 3) ℝ := u * vh

/-- `torch.norm(f, dim=1)` on a `[C, 3]` batch element: one Euclidean norm
per spatial coordinate `d`, taken over the channel axis. -/
def normDim1 {C : ℕ} (f : Fin C → Fin 3 → ℝ) (d : Fin 3) : ℝ :=
  vnorm fun c => f c d

/-- `S = torch.norm(fy, dim=1) / torch.norm(fx, dim=1)`
(`src/hegn/models/hegn.py`, line 117): a 3-vector of ratios of
channel-axis norms, with no epsilon guard on the denominator. -/
def S {C : ℕ} (fx fy : Fin C → Fin 3 → ℝ) (d : Fin 3) : ℝ :=
  normDim1 fy d / normDim1 fx d

/-- The scale the spec's §4.8 describes instead: one ratio per channel,
each norm taken over the 3-vector axis.  Stated only to be compared with
the code's `Alignment.S`. -/
def SperChannelSpec {C : ℕ} (fx fy : Fin C → Fin 3 → ℝ) (c : Fin C) : ℝ :=
  vnorm (fun d => fy c d) / vnorm (fun d => fx c d)

end Alignment

/-! Concrete inputs used to separate the code from the claims. -/

/-- Three channels forming the standard basis (the identity as a `[3,3]`
descriptor). -/
def fxI : Fin 3 → Fin 3 → ℝ := fun c d => if (c : ℕ) = d then 1 else 0

/-- The standard basis with the last channel reflected: `diag(1,1,-1)`. -/
def fyRef : Fin 3 → Fin 3 → ℝ :=
  fun c d => if (c : ℕ) = d then (if (d : ℕ) = 2 then -1 else 1) else 0

/-- `fyRef` viewed as a matrix, used as the `vh` factor of an SVD. -/
def vhRef : Matrix (Fin 3) (Fin 3) ℝ := Matrix.of fyRef

/-- Descriptors whose first channels are swapped and rescaled: rows
`(0,2,0)`, `(1,0,0)`, `(0,0,1)`. -/
def fySwap : Fin 3 → Fin 3 → ℝ :=
  fun c d =>
    if (c : ℕ) = 0 ∧ (d : ℕ) = 1 then 2 else if (c : ℕ) = 1 ∧ (d : ℕ) = 0 then 1
    else if (c : ℕ) = 2 ∧ (d : ℕ) = 2 then 1 else 0

lemma sum_fin3 (f : Fin 3 → ℝ) : ∑ i, f i = f 0 + f 1 + f 2 := by
  rw [Fin.sum_univ_three]

lemma alignH_fxI_fyRef : Alignment.H fxI fyRef = vhRef := by
  ext d e
  simp only [Alignment.H, vhRef, Matrix.of_apply, fxI, fyRef, sum_fin3]
  fin_cases d <;> fin_cases e <;> norm_num

lemma vhRef_transpose_mul : vhRefᵀ * vhRef = 1 := by
  ext d e
  simp only [Matrix.mul_apply, Matrix.transpose_apply, vhRef, Matrix.of_apply,
    fyRef, sum_fin3, Matrix.one_apply]
  fin_cases d <;> fin_cases e <;> norm_num [Fin.ext_iff]

lemma isSVD_HfxIfyRef : Alignment.IsSVD (Alignment.H fxI fyRef) 1 1 vhRef := by
  refine ⟨by simp, vhRef_transpose_mul, fun i => zero_le_one, ?_⟩
  have h1 : Matrix.diagonal (1 : Fin 3 → ℝ) = (1 : Matrix (Fin 3) (Fin 3) ℝ) := by
    ext i j
    by_cases hij : i = j <;> simp [Matrix.diagonal_apply, Matrix.one_apply, hij]
  rw [alignH_fxI_fyRef, h1]
  simp

lemma det_vhRef : vhRef.det = -1 := by
  have : vhRef = Matrix.of ![![(1:ℝ),0,0],![0,1,0],![0,0,-1]] := by
    ext d e
    simp only [vhRef, Matrix.of_apply, fyRef]
    fin_cases d <;> fin_cases e <;> norm_num
  rw [this, Matrix.det_fin_three]
  norm_num

lemma det_H_fxI_fyRef : (Alignment.H fxI fyRef).det = -1 := by
  rw [alignH_fxI_fyRef]; exact det_vhRef

/-- Orthogonality of each factor forces its determinant to square to 1. -/
lemma det_sq_of_orth {u : Matrix (Fin 3) (Fin 3) ℝ} (h : uᵀ * u = 1) :
    u.det * u.det = 1 := by
  have := congrArg Matrix.det h
  rwa [Matrix.det_mul, Matrix.det_transpose, Matrix.det_one] at this

/-- At the reflected input, every SVD the solver can receive yields a
rotation with determinant `-1`. -/
lemma det_R_of_isSVD {u vh : Matrix (Fin 3) (Fin 3) ℝ} {sv : Fin 3 → ℝ}
    (h : Alignment.IsSVD (Alignment.H fxI fyRef) u sv vh) :
    (Alignment.R u vh).det = -1 := by
  obtain ⟨hu, hv, hs, hA⟩ := h
  have hdu : u.det * u.det = 1 := det_sq_of_orth hu
  have hdv : vh.det * vh.det = 1 := det_sq_of_orth hv
  have hdd : (0:ℝ) ≤ (Matrix.diagonal sv).det := by
    rw [Matrix.det_diagonal]
    exact Finset.prod_nonneg fun i _ => hs i
  have hH : u.det * (Matrix.diagonal sv).det * vh.det = -1 := by
    have := congrArg Matrix.det hA
    rw [det_H_fxI_fyRef, Matrix.det_mul, Matrix.det_mul] at this
    linarith [this]
  have hR : (Alignment.R u vh).det = u.det * vh.det := by
    rw [Alignment.R, Matrix.det_mul]
  rw [hR]
  have ha : (u.det * vh.det) * (u.det * vh.det) = 1 := by
    calc (u.det * vh.det) * (u.det * vh.det)
        = (u.det * u.det) * (vh.det * vh.det) := by ring
      _ = 1 := by rw [hdu, hdv, one_mul]
  rcases mul_self_eq_one_iff.mp ha with h1 | h1
  · exfalso
    have : (Matrix.diagonal sv).det = -1 := by
      nlinarith [hH, h1]
    linarith [hdd]
  · exact h1

/-- The all-zero descriptor. -/
def zeroF : Fin 3 → Fin 3 → ℝ := fun _ _ => 0

lemma sqrt_four : Real.sqrt 4 = 2 := by
  rw [show (4:ℝ) = 2 ^ 2 by norm_num, Real.sqrt_sq (by norm_num)]

lemma alignH_fxI_fxI : Alignment.H fxI fxI = 1 := by
  ext d e
  simp only [Alignment.H, Matrix.of_apply, fxI, sum_fin3, Matrix.one_apply]
  fin_cases d <;> fin_cases e <;> norm_num [Fin.ext_iff]

lemma diag_one_3 : Matrix.diagonal (1 : Fin 3 → ℝ) = (1 : Matrix (Fin 3) (Fin 3) ℝ) := by
  ext i j
  by_cases hij : i = j <;> simp [Matrix.diagonal_apply, Matrix.one_apply, hij]

lemma isSVD_HfxIfxI : Alignment.IsSVD (Alignment.H fxI fxI) 1 1 1 := by
  refine ⟨by simp, by simp, fun i => zero_le_one, ?_⟩
  rw [alignH_fxI_fxI, diag_one_3]
  simp

/-- Claim C1 (amended): with `H = fxᵀ·fy` and any valid SVD `H = u·Σ·vh`
returned by `torch.linalg.svd`, the solver returns `R = u·vh` with no
reflection-correction step, and this `R` is always orthonormal
(`Rᵀ·R = 1`); its determinant, however, is not guaranteed to be `+1`. -/
theorem alignment_R_orthonormal {C : ℕ} (fx fy : Fin C → Fin 3 → ℝ)
    (u : Matrix (Fin 3) (Fin 3) ℝ) (sv : Fin 3 → ℝ)
    (vh : Matrix (Fin 3) (Fin 3) ℝ)
    (h : Alignment.IsSVD (Alignment.H fx fy) u sv vh) :
    (Alignment.R u vh)ᵀ * Alignment.R u vh = 1 := by
  obtain ⟨hu, hv, -, -⟩ := h
  calc (Alignment.R u vh)ᵀ * Alignment.R u vh
      = vhᵀ * (uᵀ * u) * vh := by
        rw [Alignment.R, Matrix.transpose_mul]
        rw [Matrix.mul_assoc, Matrix.mul_assoc, Matrix.mul_assoc]
    _ = 1 := by rw [hu, Matrix.mul_one, hv]

/-- Witness for C1's theorem: at the basis descriptors `fxI, fxI` the
cross-covariance is the identity, `(1, 1, 1)` is a valid SVD of it, and
the returned rotation is orthonormal. -/
theorem alignment_R_orthonormal_witness :
    Alignment.IsSVD (Alignment.H fxI fxI) 1 1 1 ∧
      (Alignment.R 1 1)ᵀ * Alignment.R 1 1 = 1 :=
  ⟨isSVD_HfxIfxI, alignment_R_orthonormal fxI fxI 1 1 1 isSVD_HfxIfxI⟩

/-- Claim C1 is false as stated: at the concrete pair `fxI` (the basis)
and `fyRef` (the basis with the last channel reflected), the SVD of
`H = diag(1,1,-1)` is defined (an explicit SVD triple exists), yet every
SVD triple torch could return yields `R = u·vh` with determinant `-1`,
not `+1`. -/
theorem alignment_det_counterexample :
    Alignment.IsSVD (Alignment.H fxI fyRef) 1 1 vhRef ∧
      ∀ (u : Matrix (Fin 3) (Fin 3) ℝ) (sv : Fin 3 → ℝ)
        (vh : Matrix (Fin 3) (Fin 3) ℝ),
        Alignment.IsSVD (Alignment.H fxI fyRef) u sv vh →
          (Alignment.R u vh).det ≠ 1 := by
  refine ⟨isSVD_HfxIfyRef, fun u sv vh h => ?_⟩
  rw [det_R_of_isSVD h]
  norm_num

/-- Claim C2 (amended): the scale returned by the alignment solver is the
elementwise ratio `‖fy‖/‖fx‖` of norms taken over the *channel* axis —
one ratio per spatial coordinate `d : Fin 3`, not one per channel — and
it is therefore invariant under any relabelling of the channels. -/
theorem alignment_scale_channel_axis {C : ℕ} (fx fy : Fin C → Fin 3 → ℝ)
    (σ : Equiv.Perm (Fin C)) (d : Fin 3) :
    Alignment.S fx fy d =
        Real.sqrt (∑ c, fy c d ^ 2) / Real.sqrt (∑ c, fx c d ^ 2) ∧
      Alignment.S (fun c => fx (σ c)) (fun c => fy (σ c)) d =
        Alignment.S fx fy d := by
  constructor
  · rfl
  · simp only [Alignment.S, Alignment.normDim1, vnorm]
    rw [Equiv.sum_comp σ (fun c => fy c d ^ 2),
      Equiv.sum_comp σ (fun c => fx c d ^ 2)]

/-- Claim C2 is false as stated: at `fxI` and `fySwap` (whose first two
channel rows are swapped and rescaled) the code's scale at coordinate 0
is `1`, while the elementwise ratio of per-channel norms taken over the
3-vector axis at channel 0 is `2`. -/
theorem alignment_scale_counterexample :
    Alignment.S fxI fySwap 0 = 1 ∧
      Alignment.SperChannelSpec fxI fySwap 0 = 2 ∧
      Alignment.S fxI fySwap 0 ≠ Alignment.SperChannelSpec fxI fySwap 0 := by
  have h1 : Alignment.S fxI fySwap 0 = 1 := by
    simp only [Alignment.S, Alignment.normDim1, vnorm, sum_fin3, fxI, fySwap]
    norm_num
  have h2 : Alignment.SperChannelSpec fxI fySwap 0 = 2 := by
    simp only [Alignment.SperChannelSpec, vnorm, sum_fin3, fxI, fySwap]
    norm_num [sqrt_four]
  exact ⟨h1, h2, by rw [h1, h2]; norm_num⟩

namespace InvariantMapping

variable {C N : ℕ}

/-- `fx_mean = torch.mean(fx, dim=1)` (`src/hegn/models/hegn.py`, line 83):
channel-mean of the feature, one 3-vector per point. -/
def fmean (f : Fin C → Fin 3 → Fin N → ℝ) (d : Fin 3) (n : Fin N) : ℝ :=
  (∑ c, f c d n) / (C : ℝ)

/-- The denominator of line 85: `torch.norm(fx_mean, dim=1) + 1e-6`, the
per-point mean-direction norm with the additive epsilon guard. -/
def parDenom (f : Fin C → Fin 3 → Fin N → ℝ) (n : Fin N) : ℝ :=
  vnorm (fun d => fmean f d n) + 1e-6

/-- `fx_par` (line 85): the per-point mean direction, normalized with the
epsilon-guarded norm. -/
def par (f : Fin C → Fin 3 → Fin N → ℝ) (d : Fin 3) (n : Fin N) : ℝ :=
  fmean f d n / parDenom f n

/-- `phi = torch.einsum('bcdn,bdn->bnc', f, f_par)` (lines 87-88): each
channel vector projected onto the mean direction. -/
def phi (f : Fin C → Fin 3 → Fin N → ℝ) (n : Fin N) (c : Fin C) : ℝ :=
  ∑ d, f c d n * par f d n

/-- The pre-softmax similarity `torch.einsum('bnc,bnc->bn', phi_x, phi_y)`
(line 89). -/
def simil (fx fy : Fin C → Fin 3 → Fin N → ℝ) (n : Fin N) : ℝ :=
  ∑ c, phi fx n c * phi fy n c

/-- `Sc = F.softmax(..., dim=-1)` (line 89): the per-point score. -/
def Sc (fx fy : Fin C → Fin 3 → Fin N → ℝ) : Fin N → ℝ :=
  softmax (simil fx fy)

/-- `Sc.shape[1] // topk` (line 91): the number of selected points,
integer floor division with no minimum. -/
def selCount (N t : ℕ) : ℕ := N / t

/-- `f.gather(-1, idx)` (lines 96-97): keep the feature columns at the
selected indices. -/
def gather (f : Fin C → Fin 3 → Fin N → ℝ) {k : ℕ} (idx : Fin k → Fin N) :
    Fin C → Fin 3 → Fin k → ℝ := fun c d j => f c d (idx j)

/-- The contract of `torch.topk(s, k)[1]` (line 91): `k` pairwise-distinct
indices whose scores dominate every unselected score. -/
def IsTopkIdx (s : Fin N → ℝ) {k : ℕ} (idx : Fin k → Fin N) : Prop :=
  Function.Injective idx ∧
    ∀ i : Fin N, (∀ j, idx j ≠ i) → ∀ j, s i ≤ s (idx j)

/-- Lines 91-99 of `src/hegn/models/hegn.py`: gather both feature sets at
the same `N // topk` top-scoring indices. -/
def forwardSel (fx fy : Fin C → Fin 3 → Fin N → ℝ) (t : ℕ)
    (idx : Fin (selCount N t) → Fin N) :
    (Fin C → Fin 3 → Fin (selCount N t) → ℝ) ×
      (Fin C → Fin 3 → Fin (selCount N t) → ℝ) :=
  (gather fx idx, gather fy idx)

end InvariantMapping

/-- Claim C9 (amended): the invariant-mapping normalization adds `1e-6`
to the mean-direction norm, so its denominator is strictly positive for
every input; the alignment scale division `‖fy‖/‖fx‖`, however, carries
no epsilon guard, and its denominator is exactly the channel-axis norm of
`fx`, which vanishes on the all-zero descriptor. -/
theorem epsilon_guard_only_in_invariant_mapping :
    (∀ {C N : ℕ} (f : Fin C → Fin 3 → Fin N → ℝ) (n : Fin N),
        0 < InvariantMapping.parDenom f n) ∧
      (∀ fy : Fin 3 → Fin 3 → ℝ,
        Alignment.S zeroF fy 0 =
          Alignment.normDim1 fy 0 / Alignment.normDim1 zeroF 0) ∧
      Alignment.normDim1 zeroF 0 = 0 := by
  refine ⟨?_, fun fy => rfl, ?_⟩
  · intro C N f n
    have h1 : (0:ℝ) ≤ vnorm (fun d => InvariantMapping.fmean f d n) :=
      Real.sqrt_nonneg _
    have h2 : (0:ℝ) < 1e-6 := by norm_num
    unfold InvariantMapping.parDenom
    linarith
  · simp [Alignment.normDim1, vnorm, zeroF]

/-- Claim C9 is false as stated: the division producing the scale in the
alignment solver is a normalization by a vector norm with no additive
epsilon — at the all-zero descriptor its denominator is exactly `0`, so a
division by zero does occur in the pipeline. -/
theorem alignment_scale_denominator_zero :
    Alignment.normDim1 zeroF 0 = 0 ∧
      (∀ fy : Fin 3 → Fin 3 → ℝ,
        Alignment.S zeroF fy 0 =
          Alignment.normDim1 fy 0 / Alignment.normDim1 zeroF 0) := by
  refine ⟨?_, fun fy => rfl⟩
  simp [Alignment.normDim1, vnorm, zeroF]

/-! Rotation equivariance machinery for the invariance claim. -/

/-- Apply a 3×3 matrix to a 3-vector (`Q·v`). -/
def mulVec3 (Q : Matrix (Fin 3) (Fin 3) ℝ) (v : Fin 3 → ℝ) (d : Fin 3) : ℝ :=
  ∑ e, Q d e * v e

/-- A global rotation of a feature tensor: every channel 3-vector of every
point is rotated by the same `Q`. -/
def rotFeat {C N : ℕ} (Q : Matrix (Fin 3) (Fin 3) ℝ)
    (f : Fin C → Fin 3 → Fin N → ℝ) : Fin C → Fin 3 → Fin N → ℝ :=
  fun c d n => mulVec3 Q (fun e => f c e n) d

lemma orth_entry {Q : Matrix (Fin 3) (Fin 3) ℝ} (hQ : Qᵀ * Q = 1)
    (e f' : Fin 3) : ∑ d, Q d e * Q d f' = if e = f' then 1 else 0 := by
  have h := congrArg (fun M => M e f') hQ
  simpa [Matrix.mul_apply, Matrix.transpose_apply, Matrix.one_apply] using h

/-- An orthogonal matrix preserves the dot product of 3-vectors. -/
lemma mulVec3_dot {Q : Matrix (Fin 3) (Fin 3) ℝ} (hQ : Qᵀ * Q = 1)
    (u v : Fin 3 → ℝ) :
    ∑ d, mulVec3 Q u d * mulVec3 Q v d = ∑ d, u d * v d := by
  simp only [mulVec3]
  calc ∑ d, (∑ e, Q d e * u e) * ∑ f', Q d f' * v f'
      = ∑ d, ∑ e, ∑ f', (Q d e * u e) * (Q d f' * v f') := by
        refine Finset.sum_congr rfl fun d _ => ?_
        rw [Finset.sum_mul_sum]
    _ = ∑ e, ∑ f', (∑ d, Q d e * Q d f') * (u e * v f') := by
        rw [Finset.sum_comm]
        refine Finset.sum_congr rfl fun e _ => ?_
        rw [Finset.sum_comm]
        refine Finset.sum_congr rfl fun f' _ => ?_
        rw [Finset.sum_mul]
        exact Finset.sum_congr rfl fun d _ => by ring
    _ = ∑ e, ∑ f', (if e = f' then (1:ℝ) else 0) * (u e * v f') := by
        refine Finset.sum_congr rfl fun e _ => Finset.sum_congr rfl fun f' _ => ?_
        rw [orth_entry hQ]
    _ = ∑ d, u d * v d := by
        refine Finset.sum_congr rfl fun e _ => ?_
        simp

/-- An orthogonal matrix preserves the Euclidean norm of a 3-vector. -/
lemma mulVec3_vnorm {Q : Matrix (Fin 3) (Fin 3) ℝ} (hQ : Qᵀ * Q = 1)
    (v : Fin 3 → ℝ) : vnorm (mulVec3 Q v) = vnorm v := by
  unfold vnorm
  congr 1
  have h := mulVec3_dot hQ v v
  calc ∑ d, mulVec3 Q v d ^ 2 = ∑ d, mulVec3 Q v d * mulVec3 Q v d := by
        exact Finset.sum_congr rfl fun d _ => sq (mulVec3 Q v d) ▸ by ring
    _ = ∑ d, v d * v d := h
    _ = ∑ d, v d ^ 2 := Finset.sum_congr rfl fun d _ => by ring

namespace InvariantMapping

variable {C N : ℕ}

lemma fmean_rot (Q : Matrix (Fin 3) (Fin 3) ℝ) (f : Fin C → Fin 3 → Fin N → ℝ)
    (d : Fin 3) (n : Fin N) :
    fmean (rotFeat Q f) d n = mulVec3 Q (fun d' => fmean f d' n) d := by
  simp only [fmean, rotFeat, mulVec3]
  rw [Finset.sum_comm, Finset.sum_div]
  refine Finset.sum_congr rfl fun e _ => ?_
  rw [← Finset.mul_sum, mul_div_assoc]

lemma parDenom_rot {Q : Matrix (Fin 3) (Fin 3) ℝ} (hQ : Qᵀ * Q = 1)
    (f : Fin C → Fin 3 → Fin N → ℝ) (n : Fin N) :
    parDenom (rotFeat Q f) n = parDenom f n := by
  unfold parDenom
  congr 1
  calc vnorm (fun d => fmean (rotFeat Q f) d n)
      = vnorm (mulVec3 Q (fun d' => fmean f d' n)) := by
        congr 1
        funext d
        exact fmean_rot Q f d n
    _ = vnorm (fun d' => fmean f d' n) := mulVec3_vnorm hQ _

lemma par_rot {Q : Matrix (Fin 3) (Fin 3) ℝ} (hQ : Qᵀ * Q = 1)
    (f : Fin C → Fin 3 → Fin N → ℝ) (d : Fin 3) (n : Fin N) :
    par (rotFeat Q f) d n = mulVec3 Q (fun d' => par f d' n) d := by
  simp only [par, parDenom_rot hQ, fmean_rot, mulVec3]
  rw [Finset.sum_div]
  exact Finset.sum_congr rfl fun e _ => by rw [mul_div_assoc]

lemma phi_rot {Q : Matrix (Fin 3) (Fin 3) ℝ} (hQ : Qᵀ * Q = 1)
    (f : Fin C → Fin 3 → Fin N → ℝ) (n : Fin N) (c : Fin C) :
    phi (rotFeat Q f) n c = phi f n c := by
  unfold phi
  calc ∑ d, rotFeat Q f c d n * par (rotFeat Q f) d n
      = ∑ d, mulVec3 Q (fun e => f c e n) d *
          mulVec3 Q (fun d' => par f d' n) d := by
        exact Finset.sum_congr rfl fun d _ => by rw [par_rot hQ]; rfl
    _ = ∑ d, f c d n * par f d n := mulVec3_dot hQ _ _

lemma simil_rot {Q : Matrix (Fin 3) (Fin 3) ℝ} (hQ : Qᵀ * Q = 1)
    (fx fy : Fin C → Fin 3 → Fin N → ℝ) (n : Fin N) :
    simil (rotFeat Q fx) (rotFeat Q fy) n = simil fx fy n := by
  unfold simil
  exact Finset.sum_congr rfl fun c _ => by rw [phi_rot hQ, phi_rot hQ]

end InvariantMapping

/-- Claim C6: the per-point scores of the invariant-mapping step (channel
mean direction, epsilon-guarded normalization, projection, inner product,
softmax over points) are exactly unchanged when every channel 3-vector of
both inputs is rotated by one orthogonal matrix. -/
theorem invariant_mapping_rotation_invariant {C N : ℕ}
    (Q : Matrix (Fin 3) (Fin 3) ℝ) (hQ : Qᵀ * Q = 1)
    (fx fy : Fin C → Fin 3 → Fin N → ℝ) :
    InvariantMapping.Sc (rotFeat Q fx) (rotFeat Q fy) =
      InvariantMapping.Sc fx fy := by
  have h : InvariantMapping.simil (rotFeat Q fx) (rotFeat Q fy) =
      InvariantMapping.simil fx fy :=
    funext (InvariantMapping.simil_rot hQ fx fy)
  unfold InvariantMapping.Sc
  rw [h]

/-- A 90° rotation about the z-axis. -/
def rot90z : Matrix (Fin 3) (Fin 3) ℝ :=
  Matrix.of ![![0, -1, 0], ![1, 0, 0], ![0, 0, 1]]

lemma rot90z_orth : rot90zᵀ * rot90z = 1 := by
  ext i j
  simp only [Matrix.mul_apply, Matrix.transpose_apply, rot90z, Matrix.of_apply,
    sum_fin3, Matrix.one_apply]
  fin_cases i <;> fin_cases j <;>
    simp [Matrix.vecHead, Matrix.vecTail, Fin.ext_iff]

/-- A concrete one-channel, two-point feature tensor. -/
def fxW : Fin 1 → Fin 3 → Fin 2 → ℝ := fun _ d n => (d : ℝ) + (n : ℝ) + 1

/-- Witness for C6's theorem: the scores of the concrete tensor `fxW` are
unchanged under the concrete 90° z-rotation. -/
theorem invariant_mapping_rotation_invariant_witness :
    InvariantMapping.Sc (rotFeat rot90z fxW) (rotFeat rot90z fxW) =
      InvariantMapping.Sc fxW fxW :=
  invariant_mapping_rotation_invariant rot90z rot90z_orth fxW fxW

/-- Claim C4 (amended): given any index set satisfying the `torch.topk`
contract, the invariant-mapping selector keeps exactly `N // topk`
distinct points — with no minimum-one guard, so the count is `0` whenever
`N < topk` — and gathers X's and Y's features at the same indices. -/
theorem invariant_mapping_selection {C N : ℕ}
    (fx fy : Fin C → Fin 3 → Fin N → ℝ) (t : ℕ)
    (idx : Fin (InvariantMapping.selCount N t) → Fin N)
    (h : InvariantMapping.IsTopkIdx (InvariantMapping.Sc fx fy) idx) :
    (Finset.image idx Finset.univ).card = N / t ∧
      InvariantMapping.forwardSel fx fy t idx =
        (InvariantMapping.gather fx idx, InvariantMapping.gather fy idx) := by
  constructor
  · rw [Finset.card_image_of_injective Finset.univ h.1, Finset.card_univ,
      Fintype.card_fin]
    rfl
  · rfl

/-- A one-channel, four-point all-zero feature tensor. -/
def zeroF4 : Fin 1 → Fin 3 → Fin 4 → ℝ := fun _ _ _ => 0

lemma Sc_zeroF4_const (i j : Fin 4) :
    InvariantMapping.Sc zeroF4 zeroF4 i = InvariantMapping.Sc zeroF4 zeroF4 j := by
  have h : InvariantMapping.simil zeroF4 zeroF4 = fun _ => 0 := by
    funext n
    simp [InvariantMapping.simil, InvariantMapping.phi, zeroF4]
  simp [InvariantMapping.Sc, softmax, h]

lemma isTopk_zeroF4 :
    InvariantMapping.IsTopkIdx (InvariantMapping.Sc zeroF4 zeroF4)
      (![0, 1] : Fin (InvariantMapping.selCount 4 2) → Fin 4) := by
  constructor
  · intro a b hab
    fin_cases a <;> fin_cases b <;> simp_all [Fin.ext_iff]
  · intro i _ j
    exact le_of_eq (Sc_zeroF4_const i _)

/-- Witness for C4's theorem: with `N = 4`, `topk = 2` and the all-zero
features (whose scores are all equal, so `(0, 1)` is a valid top-k index
set), exactly `4 / 2 = 2` points are kept and both gathers share the
indices. -/
theorem invariant_mapping_selection_witness :
    (Finset.image (![0, 1] : Fin (InvariantMapping.selCount 4 2) → Fin 4)
        Finset.univ).card = 4 / 2 ∧
      InvariantMapping.forwardSel zeroF4 zeroF4 2 ![0, 1] =
        (InvariantMapping.gather zeroF4 ![0, 1],
          InvariantMapping.gather zeroF4 ![0, 1]) :=
  invariant_mapping_selection zeroF4 zeroF4 2 ![0, 1] isTopk_zeroF4

/-- Claim C4 is false as stated: with `N = 2` points and `topk = 4` the
selector keeps `2 // 4 = 0` points — fewer than one. -/
theorem invariant_mapping_selection_counterexample :
    InvariantMapping.selCount 2 4 = 0 ∧ ¬ 1 ≤ InvariantMapping.selCount 2 4 := by
  constructor <;> decide

namespace CrossContext

variable {N K nh hc : ℕ}

/-- `qk = (Ky * Qx[..., None]).sum(2)` (`src/hegn/models/hegn.py`,
line 55): the dot product of query and key over the 3-vector axis only,
leaving one score per channel, per point, per neighbor. -/
def qk {C : ℕ} (Qx : Fin C → Fin 3 → Fin N → ℝ)
    (Ky : Fin C → Fin 3 → Fin N → Fin K → ℝ)
    (c : Fin C) (n : Fin N) (k : Fin K) : ℝ :=
  ∑ d, Ky c d n k * Qx c d n

lemma hc_pos (c : Fin (nh * hc)) : 0 < hc := by
  have hpos : 0 < nh * hc := lt_of_le_of_lt (Nat.zero_le _) c.isLt
  refine Nat.pos_of_ne_zero fun h => ?_
  subst h
  simp at hpos

/-- The head index of channel `c` under `view(B, N_head, head_c, N, K)`. -/
def headOf (c : Fin (nh * hc)) : Fin nh :=
  ⟨c.val / hc, (Nat.div_lt_iff_lt_mul (hc_pos c)).mpr c.isLt⟩

/-- The within-head slot of channel `c` under the same view. -/
def slotOf (c : Fin (nh * hc)) : Fin hc :=
  ⟨c.val % hc, Nat.mod_lt _ (hc_pos c)⟩

/-- The flat channel index of head `h`, slot `c` (the inverse view,
line 63). -/
def flatIdx (h : Fin nh) (c : Fin hc) : Fin (nh * hc) :=
  ⟨h.val * hc + c.val, by
    calc h.val * hc + c.val < h.val * hc + hc := Nat.add_lt_add_left c.isLt _
      _ = (h.val + 1) * hc := by ring
      _ ≤ nh * hc := Nat.mul_le_mul_right hc h.isLt⟩

lemma flatIdx_round (c : Fin (nh * hc)) : flatIdx (headOf c) (slotOf c) = c := by
  apply Fin.ext
  simp only [flatIdx, headOf, slotOf]
  rw [Nat.mul_comm]
  exact Nat.div_add_mod c.val hc

/-- `qk.view(B, N_head, head_c, N, K)` (line 59). -/
def qk5 (q : Fin (nh * hc) → Fin N → Fin K → ℝ) (h : Fin nh) (c : Fin hc) :
    Fin N → Fin K → ℝ :=
  q (flatIdx h c)

/-- Lines 60-61: scale by `1/sqrt(3*C)` with `C = N_head * head_c`, then
softmax over the neighbor axis. -/
def atten5 (q : Fin (nh * hc) → Fin N → Fin K → ℝ) (h : Fin nh) (c : Fin hc)
    (n : Fin N) : Fin K → ℝ :=
  softmax fun k => qk5 q h c n k / Real.sqrt ((3 * (nh * hc) : ℕ) : ℝ)

/-- `atten.expand(-1, -1, head_c, -1, -1)` (line 62): `expand` on an axis
whose size is already `head_c` broadcasts nothing, so it is the identity
map on the attention tensor. -/
def expandHeads (a : Fin nh → Fin hc → Fin N → Fin K → ℝ) :
    Fin nh → Fin hc → Fin N → Fin K → ℝ := a

/-- `atten.view(B, C, N, K)` (line 63): flatten the head axes back. -/
def attenFlat (q : Fin (nh * hc) → Fin N → Fin K → ℝ) (c : Fin (nh * hc)) :
    Fin N → Fin K → ℝ :=
  expandHeads (atten5 q) (headOf c) (slotOf c)

/-- Line 65: residual output `x + (atten * Vy).sum(-1)`; the unsqueezed
attention broadcasts over the 3-vector axis. -/
def out (x : Fin (nh * hc) → Fin 3 → Fin N → ℝ)
    (Qx : Fin (nh * hc) → Fin 3 → Fin N → ℝ)
    (Ky Vy : Fin (nh * hc) → Fin 3 → Fin N → Fin K → ℝ)
    (c : Fin (nh * hc)) (d : Fin 3) (n : Fin N) : ℝ :=
  x c d n + ∑ k, attenFlat (qk Qx Ky) c n k * Vy c d n k

end CrossContext

/-- Claim C5 (amended): in the cross-context aggregator the attention
score is computed per channel (the dot product runs over the 3-vector
axis only, and the multi-head view followed by `expand` leaves each
channel's score unchanged rather than broadcasting one score per head
group); each channel's scores are scaled by `1/sqrt(3·C)` and
softmax-normalized over the neighbor axis, and the output is the residual
sum of the original X features with the attention-weighted sum of Y's
values over the neighbor axis. -/
theorem cross_context_per_channel_attention {N K nh hc : ℕ}
    (x Qx : Fin (nh * hc) → Fin 3 → Fin N → ℝ)
    (Ky Vy : Fin (nh * hc) → Fin 3 → Fin N → Fin K → ℝ)
    (c : Fin (nh * hc)) (d : Fin 3) (n : Fin N) :
    CrossContext.attenFlat (CrossContext.qk Qx Ky) c n =
        softmax (fun k => CrossContext.qk Qx Ky c n k /
          Real.sqrt ((3 * (nh * hc) : ℕ) : ℝ)) ∧
      CrossContext.out x Qx Ky Vy c d n =
        x c d n + ∑ k, softmax (fun k' => CrossContext.qk Qx Ky c n k' /
          Real.sqrt ((3 * (nh * hc) : ℕ) : ℝ)) k * Vy c d n k := by
  have h1 : CrossContext.attenFlat (CrossContext.qk Qx Ky) c n =
      softmax (fun k => CrossContext.qk Qx Ky c n k /
        Real.sqrt ((3 * (nh * hc) : ℕ) : ℝ)) := by
    unfold CrossContext.attenFlat CrossContext.expandHeads CrossContext.atten5
      CrossContext.qk5
    rw [CrossContext.flatIdx_round]
  refine ⟨h1, ?_⟩
  unfold CrossContext.out
  rw [h1]

/-- Concrete query: only channel 0's first coordinate is active. -/
def QxC : Fin (1 * 2) → Fin 3 → Fin 1 → ℝ :=
  fun c d _ => if (c : ℕ) = 0 ∧ (d : ℕ) = 0 then 1 else 0

/-- Concrete keys: only channel 0, coordinate 0, neighbor 0 is active. -/
def KyC : Fin (1 * 2) → Fin 3 → Fin 1 → Fin 2 → ℝ :=
  fun c d _ k => if (c : ℕ) = 0 ∧ (d : ℕ) = 0 ∧ (k : ℕ) = 0 then 1 else 0

/-- Claim C5 is false as stated: channels 0 and 1 lie in the same head
group (one head of `head_c = 2` channels), yet their attention weights at
the same point and neighbor differ — the score is not computed once per
head group and broadcast. -/
theorem cross_context_counterexample :
    CrossContext.attenFlat (CrossContext.qk QxC KyC) ⟨0, by norm_num⟩ 0 0 ≠
      CrossContext.attenFlat (CrossContext.qk QxC KyC) ⟨1, by norm_num⟩ 0 0 := by
  have e1 : CrossContext.attenFlat (CrossContext.qk QxC KyC) ⟨0, by norm_num⟩ 0 0
      = Real.exp (1 / Real.sqrt 6) /
        (Real.exp (1 / Real.sqrt 6) + Real.exp 0) := by
    simp [CrossContext.attenFlat, CrossContext.expandHeads, CrossContext.atten5,
      CrossContext.qk5, CrossContext.headOf, CrossContext.slotOf,
      CrossContext.flatIdx, CrossContext.qk, softmax, QxC, KyC,
      Fin.sum_univ_two, sum_fin3]
  have e2 : CrossContext.attenFlat (CrossContext.qk QxC KyC) ⟨1, by norm_num⟩ 0 0
      = Real.exp 0 / (Real.exp 0 + Real.exp 0) := by
    simp [CrossContext.attenFlat, CrossContext.expandHeads, CrossContext.atten5,
      CrossContext.qk5, CrossContext.headOf, CrossContext.slotOf,
      CrossContext.flatIdx, CrossContext.qk, softmax, QxC, KyC,
      Fin.sum_univ_two, sum_fin3]
    norm_num
  have hE : 1 < Real.exp (1 / Real.sqrt 6) := by
    rw [show (1:ℝ) = Real.exp 0 from (Real.exp_zero).symm]
    rw [Real.exp_lt_exp, Real.exp_zero]
    positivity
  rw [e1, e2, Real.exp_zero]
  intro h
  have hpos : 0 < Real.exp (1 / Real.sqrt 6) + 1 := by positivity
  field_simp [ne_of_gt hpos] at h
  linarith

namespace HEGN_Loss

/-- Squared Euclidean distance between two 3D points. -/
def sqdist (p q : Fin 3 → ℝ) : ℝ := ∑ d, (p d - q d) ^ 2

/-- Modelled from the spec: the nearest-neighbor squared distance from a
point `p` to a cloud `y`, the inner reduction of the chamfer-distance
contract of §4.9 (the implementation, `pytorch3d.loss.chamfer_distance`,
is an external utility not under `src/`). Empty clouds contribute `0`. -/
def minDist {m : ℕ} (y : Fin m → Fin 3 → ℝ) (p : Fin 3 → ℝ) : ℝ :=
  if h : 0 < m then
    Finset.univ.inf' ⟨⟨0, h⟩, Finset.mem_univ _⟩ fun j => sqdist p (y j)
  else 0

/-- Modelled from the spec: `pytorch3d.loss.chamfer_distance` per its
contract in §4.9 — symmetric nearest-neighbor squared distance between
two `[B, N, 3]` clouds, averaged over points and batch. -/
def chamfer {B N M : ℕ} (x : Fin B → Fin N → Fin 3 → ℝ)
    (y : Fin B → Fin M → Fin 3 → ℝ) : ℝ :=
  (∑ b, ((∑ i, minDist (y b) (x b i)) / (N : ℝ) +
    (∑ j, minDist (x b) (y b j)) / (M : ℝ))) / (B : ℝ)

/-- `torch.norm(A, dim=(1, 2))` for one batch element: the Frobenius norm
of a 3×3 matrix. -/
def matNorm (A : Matrix (Fin 3) (Fin 3) ℝ) : ℝ :=
  Real.sqrt (∑ i, ∑ j, A i j ^ 2)

/-- Lines 216-221 of `src/hegn/models/hegn.py` for one batch element:
`‖R_gtᵀ·R − I‖² + ‖diag S − diag S_gt‖² + ‖t − t_gt‖²`, the scale matrices
entering through their diagonals. -/
def regLoss (R Rgt S Sgt : Matrix (Fin 3) (Fin 3) ℝ) (t tgt : Fin 3 → ℝ) : ℝ :=
  matNorm (Rgtᵀ * R - 1) ^ 2 + vnorm (fun i => S i i - Sgt i i) ^ 2 +
    vnorm (fun i => t i - tgt i) ^ 2

/-- `HEGN_Loss.forward` (lines 214-224): the aligned source and target
clouds arrive as `[B, 3, N]` and are transposed for the chamfer call; the
result is the triple `(L_reg.mean() + L_chamfer, L_reg.mean(),
L_chamfer)`.  (`t.squeeze()` is the identity on a `[B, 3]` translation.) -/
def forward {B N M : ℕ} (x_aligned : Fin B → Fin 3 → Fin N → ℝ)
    (y : Fin B → Fin 3 → Fin M → ℝ)
    (R S : Fin B → Matrix (Fin 3) (Fin 3) ℝ) (t : Fin B → Fin 3 → ℝ)
    (Rgt Sgt : Fin B → Matrix (Fin 3) (Fin 3) ℝ) (tgt : Fin B → Fin 3 → ℝ) :
    ℝ × ℝ × ℝ :=
  let Lreg := (∑ b, regLoss (R b) (Rgt b) (S b) (Sgt b) (t b) (tgt b)) / (B : ℝ)
  let Lch := chamfer (fun b i d => x_aligned b d i) (fun b j d => y b d j)
  (Lreg + Lch, Lreg, Lch)

/-- The registration loss exactly as the spec's §4.9 words it, squared
Frobenius and Euclidean norms written as plain sums of squares.  Stated
only to be compared with the code's `regLoss`. -/
def regLossSpec (R Rgt S Sgt : Matrix (Fin 3) (Fin 3) ℝ) (t tgt : Fin 3 → ℝ) : ℝ :=
  (∑ i, ∑ j, ((Rgtᵀ * R - 1) i j) ^ 2) + (∑ i, (S i i - Sgt i i) ^ 2) +
    (∑ i, (t i - tgt i) ^ 2)

lemma regLoss_eq_spec (R Rgt S Sgt : Matrix (Fin 3) (Fin 3) ℝ)
    (t tgt : Fin 3 → ℝ) : regLoss R Rgt S Sgt t tgt = regLossSpec R Rgt S Sgt t tgt := by
  unfold regLoss regLossSpec matNorm vnorm
  rw [Real.sq_sqrt (Finset.sum_nonneg fun i _ =>
      Finset.sum_nonneg fun j _ => sq_nonneg _),
    Real.sq_sqrt (Finset.sum_nonneg fun i _ => sq_nonneg _),
    Real.sq_sqrt (Finset.sum_nonneg fun i _ => sq_nonneg _)]

lemma sqdist_nonneg (p q : Fin 3 → ℝ) : 0 ≤ sqdist p q :=
  Finset.sum_nonneg fun _ _ => sq_nonneg _

lemma minDist_nonneg {m : ℕ} (y : Fin m → Fin 3 → ℝ) (p : Fin 3 → ℝ) :
    0 ≤ minDist y p := by
  unfold minDist
  split
  · exact Finset.le_inf' _ _ fun j _ => sqdist_nonneg p (y j)
  · exact le_refl 0

lemma minDist_self_zero {m : ℕ} (y : Fin m → Fin 3 → ℝ) (i : Fin m) :
    minDist y (y i) = 0 := by
  unfold minDist
  rw [dif_pos i.pos]
  refine le_antisymm ?_ ?_
  · refine le_trans (Finset.inf'_le _ (Finset.mem_univ i)) ?_
    simp [sqdist]
  · exact Finset.le_inf' _ _ fun j _ => sqdist_nonneg _ _

lemma chamfer_nonneg {B N M : ℕ} (x : Fin B → Fin N → Fin 3 → ℝ)
    (y : Fin B → Fin M → Fin 3 → ℝ) : 0 ≤ chamfer x y := by
  unfold chamfer
  refine div_nonneg (Finset.sum_nonneg fun b _ => ?_) (Nat.cast_nonneg B)
  refine add_nonneg (div_nonneg ?_ (Nat.cast_nonneg N))
    (div_nonneg ?_ (Nat.cast_nonneg M))
  · exact Finset.sum_nonneg fun i _ => minDist_nonneg _ _
  · exact Finset.sum_nonneg fun j _ => minDist_nonneg _ _

lemma chamfer_self_zero {B N : ℕ} (x : Fin B → Fin N → Fin 3 → ℝ) :
    chamfer x x = 0 := by
  unfold chamfer
  have h : ∀ b : Fin B, (∑ i, minDist (x b) (x b i)) = 0 :=
    fun b => Finset.sum_eq_zero fun i _ => minDist_self_zero (x b) i
  simp [h]

end HEGN_Loss

/-- Claim C7: the loss module computes the registration loss per batch
element as `‖R_gtᵀ·R − I‖²_F + ‖S − S_gt‖² + ‖t − t_gt‖²` with `S`, `S_gt`
read off the diagonals of the scale matrices, averages it over the batch,
and returns the triple `(mean registration loss + chamfer, mean
registration loss, chamfer)`. -/
theorem hegn_loss_formula {B N M : ℕ} (x_aligned : Fin B → Fin 3 → Fin N → ℝ)
    (y : Fin B → Fin 3 → Fin M → ℝ)
    (R S : Fin B → Matrix (Fin 3) (Fin 3) ℝ) (t : Fin B → Fin 3 → ℝ)
    (Rgt Sgt : Fin B → Matrix (Fin 3) (Fin 3) ℝ) (tgt : Fin B → Fin 3 → ℝ) :
    HEGN_Loss.forward x_aligned y R S t Rgt Sgt tgt =
      ((∑ b, HEGN_Loss.regLossSpec (R b) (Rgt b) (S b) (Sgt b) (t b) (tgt b)) /
          (B : ℝ) +
        HEGN_Loss.chamfer (fun b i d => x_aligned b d i) (fun b j d => y b d j),
       (∑ b, HEGN_Loss.regLossSpec (R b) (Rgt b) (S b) (Sgt b) (t b) (tgt b)) /
          (B : ℝ),
       HEGN_Loss.chamfer (fun b i d => x_aligned b d i) (fun b j d => y b d j)) := by
  unfold HEGN_Loss.forward
  simp only [HEGN_Loss.regLoss_eq_spec]

/-- Claim C8: the registration-loss component and the chamfer component of
the loss are nonnegative for all inputs, and when the predictions equal
the ground truth (the common rotation being orthonormal) and the aligned
cloud equals the target cloud, the total loss is exactly `0`. -/
theorem hegn_loss_nonneg_and_zero :
    (∀ (B N M : ℕ) (x : Fin B → Fin 3 → Fin N → ℝ)
        (y : Fin B → Fin 3 → Fin M → ℝ)
        (R S : Fin B → Matrix (Fin 3) (Fin 3) ℝ) (t : Fin B → Fin 3 → ℝ)
        (Rgt Sgt : Fin B → Matrix (Fin 3) (Fin 3) ℝ) (tgt : Fin B → Fin 3 → ℝ),
        0 ≤ (HEGN_Loss.forward x y R S t Rgt Sgt tgt).2.1 ∧
          0 ≤ (HEGN_Loss.forward x y R S t Rgt Sgt tgt).2.2) ∧
      ∀ (B N : ℕ) (x : Fin B → Fin 3 → Fin N → ℝ)
        (R S : Fin B → Matrix (Fin 3) (Fin 3) ℝ) (t : Fin B → Fin 3 → ℝ),
        (∀ b, (R b)ᵀ * R b = 1) →
          (HEGN_Loss.forward x x R S t R S t).1 = 0 := by
  constructor
  · intro B N M x y R S t Rgt Sgt tgt
    constructor
    · refine div_nonneg (Finset.sum_nonneg fun b _ => ?_) (Nat.cast_nonneg B)
      unfold HEGN_Loss.regLoss
      have h1 := sq_nonneg (HEGN_Loss.matNorm ((Rgt b)ᵀ * R b - 1))
      have h2 := sq_nonneg (vnorm fun i => S b i i - Sgt b i i)
      have h3 := sq_nonneg (vnorm fun i => t b i - tgt b i)
      linarith
    · exact HEGN_Loss.chamfer_nonneg _ _
  · intro B N x R S t horth
    unfold HEGN_Loss.forward
    have hreg : ∀ b : Fin B,
        HEGN_Loss.regLoss (R b) (R b) (S b) (S b) (t b) (t b) = 0 := by
      intro b
      unfold HEGN_Loss.regLoss HEGN_Loss.matNorm vnorm
      rw [horth b]
      simp
    have hch : HEGN_Loss.chamfer (fun b i d => x b d i) (fun b j d => x b d j)
        = 0 := HEGN_Loss.chamfer_self_zero _
    simp [hreg, hch]

/-- A concrete one-element batch: one point, identity rotations, unit
scales, zero translations. -/
def x1 : Fin 1 → Fin 3 → Fin 1 → ℝ := fun _ d _ => (d : ℝ)

/-- Constant identity rotation / scale for the one-element batch. -/
def R1 : Fin 1 → Matrix (Fin 3) (Fin 3) ℝ := fun _ => 1

/-- Zero translation for the one-element batch. -/
def t1 : Fin 1 → Fin 3 → ℝ := fun _ _ => 0

/-- Witness for C8's theorem: at the concrete batch `x1, R1, t1` the two
loss components are nonnegative and, predictions equalling ground truth
with the aligned cloud equal to the target, the total loss is `0`. -/
theorem hegn_loss_nonneg_and_zero_witness :
    (0 ≤ (HEGN_Loss.forward x1 x1 R1 R1 t1 R1 R1 t1).2.1 ∧
        0 ≤ (HEGN_Loss.forward x1 x1 R1 R1 t1 R1 R1 t1).2.2) ∧
      (HEGN_Loss.forward x1 x1 R1 R1 t1 R1 R1 t1).1 = 0 :=
  ⟨hegn_loss_nonneg_and_zero.1 1 1 1 x1 x1 R1 R1 t1 R1 R1 t1,
    hegn_loss_nonneg_and_zero.2 1 1 x1 R1 R1 t1 fun b => by simp [R1]⟩

namespace Shapes

/-! Shape-level semantics of `HEGN.forward`.  A tensor shape is its list
of dimension sizes; each torch operation either produces the result shape
or fails (`none`) exactly when torch raises a shape/index error. -/

/-- `x.unsqueeze(1)` on a shape (line 164). -/
def unsqueeze1 : List ℕ → List ℕ
  | [] => [1]
  | b :: rest => b :: 1 :: rest

/-- Modelled from the spec: an `EquivariantFeatureExtraction` block —
the VNDGCNN local context from `hegn/models/vn_dgcnn.py` plus the
cross-context and global-context stages built on the vector-neuron layers
of `hegn/models/vn_layers.py`, none of which are under `src/` — maps a
`[B, C_in, 3, N]` feature tensor to `[B, C_out, 3, N]` (§4.1, §4.3-§4.5),
failing fast on a channel or vector-axis mismatch (§7). -/
def featExtract (cin cout : ℕ) : List ℕ → Option (List ℕ)
  | [b, c, d, n] => if c = cin ∧ d = 3 then some [b, cout, 3, n] else none
  | _ => none

/-- `InvariantMapping.forward` on shapes (lines 82-99): keeps `n // topk`
points; the gather with `idx.unsqueeze(1).unsqueeze(2).expand(-1, c, 3, -1)`
(line 94) requires the vector axis to be exactly 3. -/
def invMap (t : ℕ) : List ℕ → Option (List ℕ)
  | [b, c, d, n] => if d = 3 then some [b, c, 3, n / t] else none
  | _ => none

/-- Modelled from the spec: `mean_pool` from `hegn/models/vn_layers.py`
(not under `src/`) — the arithmetic mean over the final (sample) axis
(§4.1), removing it. -/
def meanPool (sh : List ℕ) : List ℕ := sh.dropLast

/-- Modelled from the spec: `VNLinearLeakyReLU` from
`hegn/models/vn_layers.py` (not under `src/`) — learned mixing across the
channel dimension only, `[B, C_in, 3, ...] → [B, C_out, 3, ...]` (§4.1),
failing fast on a channel mismatch (§7). -/
def vnLinear (cin cout : ℕ) : List ℕ → Option (List ℕ)
  | b :: c :: d :: rest =>
    if c = cin ∧ d = 3 then some (b :: cout :: 3 :: rest) else none
  | _ => none

/-- Compatibility of one pair of `torch.cat(dim=1)` operands, walking the
two shapes from axis `i`: equal rank, and equal sizes on every axis
except axis 1. -/
def catCompat (i : ℕ) : List ℕ → List ℕ → Bool
  | [], [] => true
  | a :: s, b :: t => (i == 1 || a == b) && catCompat (i + 1) s t
  | _, _ => false

/-- `torch.cat(shapes, dim=1)` (line 107): concatenation along the
channel axis of rank-≥2 tensors agreeing on all other axes. -/
def catDim1 : List (List ℕ) → Option (List ℕ)
  | (b :: c :: rest) :: others =>
    if others.all (catCompat 0 (b :: c :: rest)) then
      some (b :: (c + (others.map fun u => u.getD 1 0).sum) :: rest)
    else none
  | _ => none

/-- The pooling loop of lines 197-199: `fx_block[i] = pool(fx_block[i])`
for `i in range(num_blocks)` — an index error when `num_blocks` exceeds
the number of collected blocks. -/
def poolFirst (nb : ℕ) (l : List (List ℕ)) : Option (List (List ℕ)) :=
  if nb ≤ l.length then some ((l.take nb).map meanPool ++ l.drop nb) else none

/-- `Alignment.forward` on shapes (lines 113-118): the einsum
`'bcd,bce->bde'` demands rank-3 operands with matching batch and channel
axes; `R = u @ v` has shape `[b, d, e]` (the batched matmul requiring
`d = e`), and `S = norm(fy, dim=1)/norm(fx, dim=1)` has shape `[b, e]`. -/
def alignment : List ℕ → List ℕ → Option (List ℕ × List ℕ)
  | [b, c, d], [b', c', e] =>
    if b = b' ∧ c = c' ∧ d = e then some ([b, d, e], [b, e]) else none
  | _, _ => none

/-- The construction arguments of `HEGN.__init__` (lines 140-157): four
fixed-length-4 configuration sequences and the block count. -/
structure Args where
  vngcnn_in : Fin 4 → ℕ
  vngcnn_out : Fin 4 → ℕ
  n_knn : Fin 4 → ℕ
  topk : Fin 4 → ℕ
  num_blocks : ℕ

/-- `HEGN.forward` on shapes (lines 159-208): four feature-extraction and
invariant-mapping blocks run unconditionally and all four outputs are
collected; only the first `num_blocks` entries are pooled (lines 197-199);
the hierarchical aggregation concatenates *all* collected entries and
projects them with a `VNLinearLeakyReLU` whose input width is
`np.sum(args.vngcnn_out)` (line 155); the fused descriptors finally enter
the alignment solver. -/
def hegnForward (a : Args) (sh : List ℕ) : Option (List ℕ × List ℕ) :=
  (featExtract (a.vngcnn_in 0) (a.vngcnn_out 0) (unsqueeze1 sh)).bind fun e1 =>
  (invMap (a.topk 0) e1).bind fun s1 =>
  (featExtract (a.vngcnn_in 1) (a.vngcnn_out 1) s1).bind fun e2 =>
  (invMap (a.topk 1) e2).bind fun s2 =>
  (featExtract (a.vngcnn_in 2) (a.vngcnn_out 2) s2).bind fun e3 =>
  (invMap (a.topk 2) e3).bind fun s3 =>
  (featExtract (a.vngcnn_in 3) (a.vngcnn_out 3) s3).bind fun e4 =>
  (invMap (a.topk 3) e4).bind fun s4 =>
  (poolFirst a.num_blocks [s1, s2, s3, s4]).bind fun pooled =>
  (catDim1 pooled).bind fun catted =>
  (vnLinear (a.vngcnn_out 0 + a.vngcnn_out 1 + a.vngcnn_out 2 + a.vngcnn_out 3)
      (a.vngcnn_out 3) catted).bind fun agg =>
  alignment agg agg

lemma invMap_shape {t : ℕ} {sh s' : List ℕ} (h : invMap t sh = some s') :
    ∃ b c n, s' = [b, c, 3, n] := by
  rcases sh with - | ⟨b, - | ⟨c, - | ⟨d, - | ⟨n, - | ⟨m, rest⟩⟩⟩⟩⟩
  · simp [invMap] at h
  · simp [invMap] at h
  · simp [invMap] at h
  · simp [invMap] at h
  · simp only [invMap] at h
    split_ifs at h with hd
    exact ⟨b, c, n / t, (Option.some.inj h).symm⟩
  · simp [invMap] at h

lemma alignment_rank4 (b c d n : ℕ) (rest s : List ℕ) :
    alignment (b :: c :: d :: n :: rest) s = none := rfl

lemma meanPool4 (b c d n : ℕ) : meanPool [b, c, d, n] = [b, c, d] := rfl

lemma bindSome {α β : Type} {x : Option α} {f : α → Option β} {r : β}
    (h : x.bind f = some r) : ∃ a, x = some a ∧ f a = some r :=
  Option.bind_eq_some.mp h

/-- Inversion of the forward shape pass: whenever it completes, the block
count was 4 and the outputs are `[B, 3, 3]` and `[B, 3]`. -/
lemma hegnForward_some_inv {a : Args} {sh : List ℕ} {r : List ℕ × List ℕ}
    (h : hegnForward a sh = some r) :
    a.num_blocks = 4 ∧ ∃ b, r = ([b, 3, 3], [b, 3]) := by
  unfold hegnForward at h
  obtain ⟨e1, he1, h⟩ := bindSome h
  obtain ⟨s1, hs1, h⟩ := bindSome h
  obtain ⟨e2, he2, h⟩ := bindSome h
  obtain ⟨s2, hs2, h⟩ := bindSome h
  obtain ⟨e3, he3, h⟩ := bindSome h
  obtain ⟨s3, hs3, h⟩ := bindSome h
  obtain ⟨e4, he4, h⟩ := bindSome h
  obtain ⟨s4, hs4, h⟩ := bindSome h
  obtain ⟨pooled, hp, h⟩ := bindSome h
  obtain ⟨catted, hcat, h⟩ := bindSome h
  obtain ⟨agg, hagg, halign⟩ := bindSome h
  obtain ⟨b1, c1, n1, rfl⟩ := invMap_shape hs1
  obtain ⟨b2, c2, n2, rfl⟩ := invMap_shape hs2
  obtain ⟨b3, c3, n3, rfl⟩ := invMap_shape hs3
  obtain ⟨b4, c4, n4, rfl⟩ := invMap_shape hs4
  unfold poolFirst at hp
  split_ifs at hp with hle
  simp only [List.length_cons, List.length_nil] at hle
  have hnb : a.num_blocks = 0 ∨ a.num_blocks = 1 ∨ a.num_blocks = 2 ∨
      a.num_blocks = 3 ∨ a.num_blocks = 4 := by omega
  rcases hnb with hnb | hnb | hnb | hnb | hnb
  · -- no block pooled: all four collected shapes keep rank 4, the
    -- concatenation can go through, but the alignment einsum rejects the
    -- rank-4 fused tensor
    rw [hnb] at hp
    simp only [List.take_zero, List.map_nil, List.drop_zero,
      List.nil_append] at hp
    obtain rfl := Option.some.inj hp
    simp only [catDim1] at hcat
    split_ifs at hcat with hcond
    obtain rfl := Option.some.inj hcat
    simp only [vnLinear] at hagg
    split_ifs at hagg with hcl
    obtain rfl := Option.some.inj hagg
    rw [alignment_rank4] at halign
    simp at halign
  · -- blocks 2-4 keep rank 4 while block 1 was pooled to rank 3: cat fails
    rw [hnb] at hp
    simp only [List.take_succ_cons, List.take_zero, List.map_cons,
      List.map_nil, List.drop_succ_cons, List.drop_zero, meanPool4,
      List.cons_append, List.nil_append] at hp
    obtain rfl := Option.some.inj hp
    simp [catDim1, catCompat] at hcat
  · rw [hnb] at hp
    simp only [List.take_succ_cons, List.take_zero, List.map_cons,
      List.map_nil, List.drop_succ_cons, List.drop_zero, meanPool4,
      List.cons_append, List.nil_append] at hp
    obtain rfl := Option.some.inj hp
    simp [catDim1, catCompat] at hcat
  · rw [hnb] at hp
    simp only [List.take_succ_cons, List.take_zero, List.map_cons,
      List.map_nil, List.drop_succ_cons, List.drop_zero, meanPool4,
      List.cons_append, List.nil_append] at hp
    obtain rfl := Option.some.inj hp
    simp [catDim1, catCompat] at hcat
  · -- all four blocks pooled: the pipeline reaches the alignment solver
    rw [hnb] at hp
    simp only [List.take_succ_cons, List.take_zero, List.map_cons,
      List.map_nil, List.drop_succ_cons, List.drop_zero, meanPool4,
      List.cons_append, List.nil_append, List.append_nil] at hp
    obtain rfl := Option.some.inj hp
    simp only [catDim1] at hcat
    split_ifs at hcat with hcond
    obtain rfl := Option.some.inj hcat
    simp only [vnLinear] at hagg
    split_ifs at hagg with hcl
    obtain rfl := Option.some.inj hagg
    simp only [alignment] at halign
    rw [if_pos (by simp)] at halign
    exact ⟨hnb, b1, (Option.some.inj halign).symm⟩

end Shapes

/-- Claim C10: the forward pass of the model unconditionally runs four
feature-extraction and invariant-mapping blocks and collects four block
outputs, pools only the first `num_blocks` of them, and then concatenates
all of them — so it can complete without a shape error only when
`num_blocks = 4`. -/
theorem hegn_forward_needs_four_blocks (a : Shapes.Args) (sh : List ℕ)
    (r : List ℕ × List ℕ) (h : Shapes.hegnForward a sh = some r) :
    a.num_blocks = 4 :=
  (Shapes.hegnForward_some_inv h).1

/-- A concrete valid configuration: channel widths `1 → 8 → 8 → 8 → 8`,
`topk = 2` per level, `num_blocks = 4`. -/
def cfgEx : Shapes.Args :=
  ⟨![1, 8, 8, 8], ![8, 8, 8, 8], ![4, 4, 4, 4], ![2, 2, 2, 2], 4⟩

/-- Witness for C10's theorem: the concrete configuration `cfgEx` on a
`[2, 3, 16]` input completes the forward pass, and the theorem recovers
`num_blocks = 4` from that fact. -/
theorem hegn_forward_needs_four_blocks_witness :
    Shapes.hegnForward cfgEx [2, 3, 16] = some ([2, 3, 3], [2, 3]) ∧
      cfgEx.num_blocks = 4 :=
  ⟨by decide,
    hegn_forward_needs_four_blocks cfgEx [2, 3, 16] ([2, 3, 3], [2, 3])
      (by decide)⟩

/-- Claim C3 (amended): whenever the forward pass completes (the input
cloud supplied `[B, 3, N]`, the layout the pipeline consumes after
`unsqueeze(1)`), the predicted rotation has shape `[B, 3, 3]` but the
predicted scale has shape `[B, 3]` — a 3-vector per batch element, not a
diagonal `[B, 3, 3]` matrix. -/
theorem hegn_forward_output_shapes (a : Shapes.Args) (sh : List ℕ)
    (R S : List ℕ) (h : Shapes.hegnForward a sh = some (R, S)) :
    ∃ b, R = [b, 3, 3] ∧ S = [b, 3] := by
  obtain ⟨-, b, hr⟩ := Shapes.hegnForward_some_inv h
  exact ⟨b, congrArg Prod.fst hr, congrArg Prod.snd hr⟩

/-- Witness for C3's theorem, at the concrete configuration `cfgEx`. -/
theorem hegn_forward_output_shapes_witness :
    ∃ b, ([2, 3, 3] : List ℕ) = [b, 3, 3] ∧ ([2, 3] : List ℕ) = [b, 3] :=
  hegn_forward_output_shapes cfgEx [2, 3, 16] [2, 3, 3] [2, 3] (by decide)

/-- Claim C3 is false as stated: at the concrete configuration `cfgEx` the
forward pass returns the scale with shape `[2, 3]`, which is not the
claimed `[2, 3, 3]` diagonal-matrix shape. -/
theorem hegn_forward_scale_shape_counterexample :
    Shapes.hegnForward cfgEx [2, 3, 16] = some ([2, 3, 3], [2, 3]) ∧
      ([2, 3] : List ℕ) ≠ [2, 3, 3] := by
  constructor <;> decide

end HegnSpec
